import Mathlib

/-!
Verification of the `mininab` envelope-budgeting ledger (src/mininab.py).

The Python program is shallowly embedded: Python dicts become insertion-ordered
association lists, Python `float` money amounts become exact rationals `ℚ`
(the operations the program performs on them — addition, subtraction, `max`,
comparison with zero — are modelled exactly), and Python exceptions become an
explicit `Except PyExn` result.  Each `cmd_*` function below mirrors the
body of the Python function of the same name.
-/

/-! ## Character-level string utilities

`str.strip`, whitespace tokenisation and the digit handling of
`datetime.strptime` are modelled on `List Char`; `String` is only a wrapper
at the boundary (`String.data` / `String.mk`). -/

/-- ASCII whitespace, as recognised by `str.strip` and the `\s` class of the
`re` patterns `strptime` compiles (space, tab, newline, CR, VT, FF). -/
def isSpaceCh (c : Char) : Bool :=
  c == ' ' || c == '\t' || c == '\n' || c == '\r' || c == '\x0b' || c == '\x0c'

/-- Models Python `str.strip()`: drop whitespace from both ends. -/
def stripChars (l : List Char) : List Char :=
  ((l.dropWhile isSpaceCh).reverse.dropWhile isSpaceCh).reverse

/-- Accumulator-based whitespace tokeniser (helper for `wordsOf`). -/
def wordsAux : List Char → List Char → List (List Char)
  | [], acc => if acc.isEmpty then [] else [acc.reverse]
  | c :: rest, acc =>
    if isSpaceCh c then
      if acc.isEmpty then wordsAux rest [] else acc.reverse :: wordsAux rest []
    else wordsAux rest (c :: acc)

/-- Splits a character list into maximal whitespace-free tokens.  This models
the way `strptime` matches a format-string blank against `\s+` in the input:
`"%b %Y"` accepts any positive run of whitespace between the two fields. -/
def wordsOf (l : List Char) : List (List Char) := wordsAux l []

/-- ASCII lower-casing of one character (the `re.IGNORECASE` matching of
month names in `strptime`). -/
def lowerCh (c : Char) : Char :=
  if 65 ≤ c.toNat ∧ c.toNat ≤ 90 then Char.ofNat (c.toNat + 32) else c

def lowerChars (l : List Char) : List Char := l.map lowerCh

/-- ASCII decimal digit, the `\d` of the compiled `strptime` patterns. -/
def isDigitCh (c : Char) : Bool := 48 ≤ c.toNat && c.toNat ≤ 57

def digitVal (c : Char) : Nat := c.toNat - 48

/-- The character for a decimal digit (inverse of `digitVal` on 0..9). -/
def digitCh (d : Nat) : Char := Char.ofNat (48 + d)

/-- Splits on a separator character, keeping empty segments, as Python
`str.split(sep)` does (helper for the `:`-splitting of `cmd_cat`). -/
def splitOnCh (sep : Char) : List Char → List Char → List (List Char)
  | [], acc => [acc.reverse]
  | c :: rest, acc =>
    if c == sep then acc.reverse :: splitOnCh sep rest []
    else splitOnCh sep rest (c :: acc)

/-! ## Month key normalizer (`parse_month`, src lines 53-60)

The Python function tries `strptime` with the formats `"%b %Y"`, `"%B %Y"`,
`"%Y-%m"`, `"%Y/%m"` in that order and renders the first success with
`strftime("%Y-%m")`; if none matches it raises `ValueError`.  The `strptime`
field semantics modelled here: `%Y` is exactly four ASCII digits (and the
resulting year must be ≥ 1, `datetime.MINYEAR`), `%m` is `1[0-2]|0[1-9]|[1-9]`,
`%b`/`%B` match the English month names case-insensitively, and a blank in the
format matches one or more whitespace characters. -/

def abbrevNames : List (List Char) :=
  ["jan", "feb", "mar", "apr", "may", "jun",
   "jul", "aug", "sep", "oct", "nov", "dec"].map String.data

def fullNames : List (List Char) :=
  ["january", "february", "march", "april", "may", "june", "july",
   "august", "september", "october", "november", "december"].map String.data

/-- Index of the first occurrence of a key in a list (or `none`). -/
def idxOf : List Char → List (List Char) → Option Nat
  | _, [] => none
  | k, n :: rest =>
    if n = k then some 0 else (idxOf k rest).map (· + 1)

/-- `%Y`: exactly four digits, year ≥ 1 (`datetime` rejects year 0). -/
def parse4 (a b c d : Char) : Option Nat :=
  if isDigitCh a && isDigitCh b && isDigitCh c && isDigitCh d then
    let y := 1000 * digitVal a + 100 * digitVal b + 10 * digitVal c + digitVal d
    if 1 ≤ y then some y else none
  else none

/-- `%m`, one-digit form (`[1-9]`). -/
def parseM1 (a : Char) : Option Nat :=
  if isDigitCh a then
    let m := digitVal a
    if 1 ≤ m then some m else none
  else none

/-- `%m`, two-digit form (`1[0-2]|0[1-9]`). -/
def parseM2 (a b : Char) : Option Nat :=
  if isDigitCh a && isDigitCh b then
    let m := 10 * digitVal a + digitVal b
    if 1 ≤ m ∧ m ≤ 12 then some m else none
  else none

/-- One `strptime` attempt with format `"%b %Y"` / `"%B %Y"` over the given
name table: a month-name token, whitespace, a four-digit year — and nothing
else (`strptime` rejects unconverted trailing data). -/
def fmtName (names : List (List Char)) (l : List Char) : Option (Nat × Nat) :=
  match wordsOf l with
  | [nm, [a, b, c, d]] =>
    match idxOf (lowerChars nm) names, parse4 a b c d with
    | some i, some y => some (y, i + 1)
    | _, _ => none
  | _ => none

/-- One `strptime` attempt with format `"%Y-%m"` / `"%Y/%m"`: four digits,
the separator, one or two digits, and nothing else. -/
def fmtYM (sep : Char) (l : List Char) : Option (Nat × Nat) :=
  match l with
  | [a, b, c, d, s, e] =>
    if s = sep then
      match parse4 a b c d, parseM1 e with
      | some y, some m => some (y, m)
      | _, _ => none
    else none
  | [a, b, c, d, s, e, f] =>
    if s = sep then
      match parse4 a b c d, parseM2 e f with
      | some y, some m => some (y, m)
      | _, _ => none
    else none
  | _ => none

/-- Decimal rendering of a natural number without leading zeros
(fuel-based; the fuel `n + 1` always suffices). -/
def renderNatAux : Nat → Nat → List Char
  | 0, _ => []
  | fuel + 1, n =>
    if n < 10 then [digitCh n] else renderNatAux fuel (n / 10) ++ [digitCh (n % 10)]

def renderNat (n : Nat) : List Char := renderNatAux (n + 1) n

/-- `strftime("%Y-%m")`: the year in decimal (glibc does not zero-pad `%Y`;
a parsed year always has ≥ 1 digit here) and the month zero-padded to two
digits. -/
def monthKey (y m : Nat) : String :=
  String.mk (renderNat y ++ '-' :: (if m < 10 then ['0', digitCh m] else renderNat m))

/-- Python exceptions that the program can raise. -/
inductive PyExn where
  | valueError (msg : String)
  | nameError (name : String)
  | attributeError (attr : String)
  deriving Repr, DecidableEq

/-- Models `parse_month` (src 53-60): strip the input (the Python function
rebinds `text` to `text.strip()` once; the stripped text is written out here
at each use), try the four formats in order, render the first success as
`YYYY-MM`, else raise `ValueError`. -/
def parse_month (text : String) : Except PyExn String :=
  match fmtName abbrevNames (stripChars text.data) with
  | some (y, m) => .ok (monthKey y m)
  | none =>
    match fmtName fullNames (stripChars text.data) with
    | some (y, m) => .ok (monthKey y m)
    | none =>
      match fmtYM '-' (stripChars text.data) with
      | some (y, m) => .ok (monthKey y m)
      | none =>
        match fmtYM '/' (stripChars text.data) with
        | some (y, m) => .ok (monthKey y m)
        | none => .error (.valueError "Unrecognised month format")

example : parse_month "2024-03" = .ok "2024-03" := rfl
example : parse_month "Mar 2024" = .ok "2024-03" := rfl
example : parse_month "march 2024" = .ok "2024-03" := rfl
example : parse_month "2024/3" = .ok "2024-03" := rfl
example : parse_month " 2024-12 " = .ok "2024-12" := rfl
example : parse_month "2024-13" = .error (.valueError "Unrecognised month format") := rfl
example : parse_month "nope" = .error (.valueError "Unrecognised month format") := rfl

deriving instance DecidableEq for Except

/-! ## Ledger store (src 62-64 and the state dict shape)

Python dicts are modelled as insertion-ordered association lists: assignment
to an existing key replaces in place, assignment to a fresh key appends.
Money (`float` in Python) is modelled as `ℚ`. -/

/-- Association-list lookup, `d.get(k)` / `k in d` on a Python dict. -/
def lookupA {α : Type} (k : String) : List (String × α) → Option α
  | [] => none
  | (k', v) :: rest => if k' = k then some v else lookupA k rest

/-- Association-list assignment, `d[k] = v` on a Python dict: replace in
place if present, append otherwise. -/
def setA {α : Type} (k : String) (v : α) : List (String × α) → List (String × α)
  | [] => [(k, v)]
  | (k', v') :: rest => if k' = k then (k, v) :: rest else (k', v') :: setA k v rest

/-- A `CategoryMonthEntry`: the dict
`{"budgeted": .., "activity": .., "available": ..}`. -/
structure CatEntry where
  budgeted : ℚ
  activity : ℚ
  available : ℚ
  deriving Repr, DecidableEq

def zeroEntry : CatEntry := ⟨0, 0, 0⟩

/-- A transaction record as appended by the commands. -/
structure Tx where
  month : String
  account : Option String
  category : Option String
  amount : ℚ
  deriving Repr, DecidableEq

/-- The ledger state.  `accounts` maps a name to its `"type"` string;
`categories` maps a path to its optional parent path; `month_summary` maps a
month to its `ready_to_assign` value (the Python inner dict
`{"ready_to_assign": ..}` holds exactly this one key whenever it exists, so
it is flattened here); `category_month` maps month → category → entry. -/
structure LedgerState where
  accounts : List (String × String)
  categories : List (String × Option String)
  month_summary : List (String × ℚ)
  category_month : List (String × List (String × CatEntry))
  transactions : List Tx
  deriving Repr, DecidableEq

/-- The fresh state literal of `load_state` (src 35-41). -/
def fresh_state : LedgerState := ⟨[], [], [], [], []⟩

/-- The (month, category) entry, with the zero default that
`get_cat_entry` (src 62-64) would mint; reading it does not insert. -/
def cmEntry (s : LedgerState) (m c : String) : Option CatEntry :=
  lookupA c ((lookupA m s.category_month).getD [])

def entryD (s : LedgerState) (m c : String) : CatEntry :=
  (cmEntry s m c).getD zeroEntry

/-- Writes the (month, category) entry (the net effect of
`get_cat_entry` + in-place field mutation in the Python code). -/
def setEntry (s : LedgerState) (m c : String) (e : CatEntry) : LedgerState :=
  { s with
    category_month :=
      setA m (setA c e ((lookupA m s.category_month).getD [])) s.category_month }

def appendTx (s : LedgerState) (t : Tx) : LedgerState :=
  { s with transactions := s.transactions ++ [t] }

/-- `category_month.setdefault(m, {})` (src 186-187). -/
def ensureMonth (s : LedgerState) (m : String) : LedgerState :=
  if (lookupA m s.category_month).isSome then s
  else { s with category_month := setA m [] s.category_month }

/-- The user-visible messages the commands print, with their data. -/
inductive Msg where
  | invalidAccountType
  | accountAdded (name typ : String)
  | accountExists (name : String)
  | categoryAdded (path : String)
  | categoryExists (path : String)
  | tbbSet (month : String) (amt : ℚ)
  | categoryNotFound (cat : String)
  | budgeted (month cat : String) (amt : ℚ)
  | accountNotFound (acc : String)
  | spent (month acc cat : String) (amt : ℚ)
  | accountsMissing
  | transferred (month src dst : String) (amt : ℚ)
  | rolled (frm dst : String) (overspend : ℚ)
  deriving Repr, DecidableEq

/-- Round-half-to-even on ℚ, the rounding Python's builtin `round` uses. -/
def roundHalfEven (x : ℚ) : ℤ :=
  let f := Int.floor x
  let r := x - f
  if r < 1 / 2 then f
  else if 1 / 2 < r then f + 1
  else if f % 2 = 0 then f else f + 1

/-- Python `round(x, 2)`. -/
def round2 (x : ℚ) : ℚ := (roundHalfEven (100 * x) : ℚ) / 100

/-! ## Budgeting engine commands (src 85-200)

Each function mirrors the Python function of the same name.  A raised
exception (an unparsable month) is `.error`; the validation failures the
Python code prints-and-returns are `.ok` with the state unchanged and the
message recorded. -/

/-- Models `cmd_acc` (src 85-99). -/
def cmd_acc (s : LedgerState) (name typ : String) : LedgerState × List Msg :=
  if ¬(typ = "bank" ∨ typ = "credit") then (s, [.invalidAccountType])
  else if (lookupA name s.accounts).isSome then (s, [.accountExists name])
  else ({ s with accounts := setA name typ s.accounts }, [.accountAdded name typ])

/-- The per-segment loop of `cmd_cat` (src 109-122): `parent` is the previous
prefix, `fp` the path built so far, `first` tells whether no segment has been
consumed yet (the Python `i > 0` test). -/
def catLoop : List (String × Option String) → Option String → String → Bool →
    List String → List (String × Option String) × List Msg
  | cats, _, _, _, [] => (cats, [])
  | cats, parent, fp, first, part :: rest =>
    let fullPath := if first then part else fp ++ ":" ++ part
    if (lookupA fullPath cats).isSome then
      if rest.isEmpty then (cats, [.categoryExists fullPath])
      else catLoop cats (some fullPath) fullPath false rest
    else
      let next := catLoop (setA fullPath parent cats) (some fullPath) fullPath false rest
      (next.1, Msg.categoryAdded fullPath :: next.2)

/-- Models `cmd_cat` (src 101-122): split the spec on `:`, strip each
segment, and ensure every prefix path exists. -/
def cmd_cat (s : LedgerState) (spec : String) : LedgerState × List Msg :=
  let parts := (splitOnCh ':' spec.data []).map (fun p => String.mk (stripChars p))
  ({ s with categories := (catLoop s.categories none "" true parts).1 },
   (catLoop s.categories none "" true parts).2)

/-- Models `cmd_tbb` (src 124-130): sets (replaces) the month's
`ready_to_assign` to `round(amt, 2)`. -/
def cmd_tbb (s : LedgerState) (mon : String) (amt : ℚ) :
    Except PyExn (LedgerState × List Msg) :=
  match parse_month mon with
  | .error e => .error e
  | .ok m =>
    .ok ({ s with month_summary := setA m (round2 amt) s.month_summary },
         [.tbbSet m amt])

/-- Models `cmd_bud` (src 132-145): unknown category leaves the state
untouched; otherwise both `budgeted` and `available` grow by `amt` and one
transaction is appended. -/
def cmd_bud (s : LedgerState) (mon cat : String) (amt : ℚ) :
    Except PyExn (LedgerState × List Msg) :=
  match parse_month mon with
  | .error e => .error e
  | .ok m =>
    if (lookupA cat s.categories).isNone then .ok (s, [.categoryNotFound cat])
    else
      let e := entryD s m cat
      let e' := { e with budgeted := e.budgeted + amt, available := e.available + amt }
      .ok (appendTx (setEntry s m cat e') ⟨m, none, some cat, amt⟩,
           [.budgeted m cat amt])

/-- Models `cmd_spend` (src 147-165): validates the account, then the
category, before mutating anything; on success `activity` and `available`
drop by `amt` and a transaction of amount `-amt` is appended. -/
def cmd_spend (s : LedgerState) (mon acc cat : String) (amt : ℚ) :
    Except PyExn (LedgerState × List Msg) :=
  match parse_month mon with
  | .error e => .error e
  | .ok m =>
    if (lookupA acc s.accounts).isNone then .ok (s, [.accountNotFound acc])
    else if (lookupA cat s.categories).isNone then .ok (s, [.categoryNotFound cat])
    else
      let e := entryD s m cat
      let e' := { e with activity := e.activity - amt, available := e.available - amt }
      .ok (appendTx (setEntry s m cat e') ⟨m, some acc, some cat, -amt⟩,
           [.spent m acc cat amt])

/-- Models `cmd_xfer` (src 167-179): both accounts must exist; the only
mutation is appending the two transactions. -/
def cmd_xfer (s : LedgerState) (mon src dst : String) (amt : ℚ) :
    Except PyExn (LedgerState × List Msg) :=
  match parse_month mon with
  | .error e => .error e
  | .ok m =>
    if (lookupA src s.accounts).isNone ∨ (lookupA dst s.accounts).isNone then
      .ok (s, [.accountsMissing])
    else
      .ok ({ s with
             transactions :=
               s.transactions ++ [⟨m, some src, none, -amt⟩, ⟨m, some dst, none, amt⟩] },
           [.transferred m src dst amt])

/-- The per-category loop of `cmd_roll` (src 189-196): reads the source
month's `available` (0 if absent), carries `max(av, 0)` into the destination
entry (minting it with zero fields if absent) and accumulates the overspend.
Reading through the current state reproduces the Python aliasing when the
two months coincide. -/
def rollLoop (f t : String) : List String → LedgerState → ℚ → LedgerState × ℚ
  | [], s, ov => (s, ov)
  | c :: rest, s, ov =>
    let av := (entryD s f c).available
    let carry := max av 0
    let ov' := if av < 0 then ov + -av else ov
    let dest := entryD s t c
    rollLoop f t rest (setEntry s t c { dest with available := dest.available + carry }) ov'

/-- Models `cmd_roll` (src 181-200): both month dicts are minted, every
registered category is processed in order, then the destination month's
`ready_to_assign` (0 if missing) is reduced by the accumulated overspend. -/
def cmd_roll (s : LedgerState) (frm toMon : String) :
    Except PyExn (LedgerState × List Msg) :=
  match parse_month frm with
  | .error e => .error e
  | .ok f =>
    match parse_month toMon with
    | .error e => .error e
    | .ok t =>
      let s1 := ensureMonth (ensureMonth s f) t
      let r := rollLoop f t (s1.categories.map Prod.fst) s1 0
      let rta := (lookupA t r.1.month_summary).getD 0
      .ok ({ r.1 with month_summary := setA t (rta - r.2) r.1.month_summary },
           [.rolled f t r.2])

/-! ## Reporting (src 66-81 and 202-224) and persistence (src 14, 29-41) -/

/-- The per-parent child lists of `sorted_categories` (src 66-81): insertion
order filtered by parent, then sorted lexicographically. -/
def childrenOf (cats : List (String × Option String)) (p : Option String) :
    List String :=
  ((cats.filter (fun q => q.2 == p)).map Prod.fst).mergeSort (· ≤ ·)

/-- Fuel-bounded pre-order traversal (the Python `visit` recursion; the fuel
`#categories + 1` covers every ancestor chain, which cannot be longer than
the category list itself). -/
def preVisit (ch : Option String → List String) : Nat → Option String → List String
  | 0, _ => []
  | fuel + 1, p => (ch p).foldr (fun n acc => (n :: preVisit ch fuel (some n)) ++ acc) []

/-- Models `sorted_categories` (src 66-81), returning the category names in
display order.  (The Python version carries two-space indentation that
`cmd_rep` strips back off with `lstrip`; since `cmd_cat` strips every
segment, no name starts with whitespace and the round trip is the
identity, so the indentation is dropped here.) -/
def sorted_categories (s : LedgerState) : List String :=
  preVisit (childrenOf s.categories) (s.categories.length + 1) none

/-- The Remaining-TBB number printed by `cmd_rep` (src 217-224):
`ready_to_assign` of the month (0 if unset) minus the total `budgeted` over
all displayed categories (entries defaulting to zero). -/
def reportRemaining (s : LedgerState) (m : String) : ℚ :=
  let cm := (lookupA m s.category_month).getD []
  ((lookupA m s.month_summary).getD 0) -
    ((sorted_categories s).map (fun c => ((lookupA c cm).getD zeroEntry).budgeted)).sum

/-- Line 205 of `cmd_rep` reads the name `m`, which is bound nowhere in the
function or module: in Python this raises `NameError` before anything else
runs.  This definition models that failed name lookup. -/
def repName_m : Except PyExn String := .error (.nameError "m")

/-- Models `cmd_rep` (src 202-224): the body's first statement evaluates the
unbound name `m` (the `m = parse_month(mon)` line every other command has is
missing), so the command raises `NameError`; the intended report value is
`reportRemaining`. -/
def cmd_rep (s : LedgerState) (mon : String) : Except PyExn ℚ :=
  match repName_m with
  | .error e => .error e
  | .ok m => .ok (reportRemaining s m)

/-- Models the module constant `DATA = "mininab.json"` (src 14): a plain
Python `str`, not a `pathlib.Path` (`pathlib` is imported but never used). -/
def DATA : String := "mininab.json"

/-- Models the attribute lookup `DATA.exists` (src 31): Python `str` has no
attribute `exists`, so the lookup raises `AttributeError` whatever the
filesystem contains. -/
def strAttrExists : Except PyExn (Bool → Bool) := .error (.attributeError "exists")

/-- Models `load_state` (src 29-41).  `fileState` is the filesystem
collaborator: `some st` when a state file with content `st` exists, `none`
when none does.  The first evaluated expression is `DATA.exists()`. -/
def load_state (fileState : Option LedgerState) : Except PyExn LedgerState :=
  match strAttrExists with
  | .error e => .error e
  | .ok ex =>
    if ex fileState.isSome then
      match fileState with
      | some st => .ok st
      | none => .ok fresh_state
    else .ok fresh_state

example : cmd_acc fresh_state "Checking" "bank" =
    ({ fresh_state with accounts := [("Checking", "bank")] },
     [.accountAdded "Checking" "bank"]) := rfl
example : (cmd_cat fresh_state "A:B:C").1.categories =
    [("A", none), ("A:B", some "A"), ("A:B:C", some "A:B")] := rfl
example : (cmd_cat fresh_state "A:B:C").2 =
    [.categoryAdded "A", .categoryAdded "A:B", .categoryAdded "A:B:C"] := rfl

/-! ## Map and entry lemmas -/

theorem lookupA_setA_self {α : Type} (k : String) (v : α) (l : List (String × α)) :
    lookupA k (setA k v l) = some v := by
  induction l with
  | nil => simp [setA, lookupA]
  | cons p rest ih =>
    by_cases h : p.1 = k
    · simp [setA, h, lookupA]
    · simp [setA, h, lookupA, ih]

theorem lookupA_setA_ne {α : Type} (k k' : String) (v : α) (l : List (String × α))
    (h : k ≠ k') : lookupA k' (setA k v l) = lookupA k' l := by
  induction l with
  | nil => simp [setA, lookupA, h]
  | cons p rest ih =>
    by_cases hp : p.1 = k
    · simp [setA, hp, lookupA, h, ih]
    · simp only [setA, hp, if_false, lookupA]
      by_cases hp' : p.1 = k' <;> simp [hp', ih]

theorem mem_setA {α : Type} (k : String) (v : α) (l : List (String × α)) (x : String × α)
    (h : x ∈ setA k v l) : x = (k, v) ∨ x ∈ l := by
  induction l with
  | nil => simpa [setA] using h
  | cons p rest ih =>
    obtain ⟨k', v'⟩ := p
    by_cases hp : k' = k
    · simp only [setA, hp, if_true, List.mem_cons] at h
      rcases h with h | h
      · exact Or.inl h
      · exact Or.inr (List.mem_cons_of_mem _ h)
    · simp only [setA, hp, if_false, List.mem_cons] at h
      rcases h with h | h
      · exact Or.inr (by simp [h])
      · rcases ih h with h' | h'
        · exact Or.inl h'
        · exact Or.inr (List.mem_cons_of_mem _ h')

theorem lookupA_mem {α : Type} (k : String) (v : α) (l : List (String × α))
    (h : lookupA k l = some v) : (k, v) ∈ l := by
  induction l with
  | nil => simp [lookupA] at h
  | cons p rest ih =>
    by_cases hp : p.1 = k
    · simp only [lookupA, hp, if_true, Option.some.injEq] at h
      subst h
      rcases p with ⟨k', v⟩
      simp_all
    · simp only [lookupA, hp, if_false] at h
      exact List.mem_cons_of_mem _ (ih h)

theorem cmEntry_setEntry_self (s : LedgerState) (m c : String) (e : CatEntry) :
    cmEntry (setEntry s m c e) m c = some e := by
  simp [cmEntry, setEntry, lookupA_setA_self]

theorem cmEntry_setEntry_ne (s : LedgerState) (m c m' c' : String) (e : CatEntry)
    (h : m ≠ m' ∨ c ≠ c') :
    cmEntry (setEntry s m c e) m' c' = cmEntry s m' c' := by
  by_cases hm : m = m'
  · subst hm
    rcases h with h | h
    · exact absurd rfl h
    · simp [cmEntry, setEntry, lookupA_setA_self, lookupA_setA_ne _ _ _ _ h]
  · simp [cmEntry, setEntry, lookupA_setA_ne _ _ _ _ hm]

theorem entryD_setEntry_self (s : LedgerState) (m c : String) (e : CatEntry) :
    entryD (setEntry s m c e) m c = e := by
  simp [entryD, cmEntry_setEntry_self]

theorem entryD_setEntry_ne (s : LedgerState) (m c m' c' : String) (e : CatEntry)
    (h : m ≠ m' ∨ c ≠ c') :
    entryD (setEntry s m c e) m' c' = entryD s m' c' := by
  simp [entryD, cmEntry_setEntry_ne _ _ _ _ _ _ h]

theorem cmEntry_ensureMonth (s : LedgerState) (m m' c : String) :
    cmEntry (ensureMonth s m) m' c = cmEntry s m' c := by
  unfold ensureMonth
  by_cases h : (lookupA m s.category_month).isSome
  · simp [h]
  · simp only [h, if_false]
    by_cases hm : m = m'
    · subst hm
      have : lookupA m s.category_month = none := by
        cases hl : lookupA m s.category_month with
        | none => rfl
        | some _ => simp [hl] at h
      simp [cmEntry, lookupA_setA_self, this, lookupA]
    · simp [cmEntry, lookupA_setA_ne _ _ _ _ hm]

theorem entryD_ensureMonth (s : LedgerState) (m m' c : String) :
    entryD (ensureMonth s m) m' c = entryD s m' c := by
  simp [entryD, cmEntry_ensureMonth]

theorem ensureMonth_month_summary (s : LedgerState) (m : String) :
    (ensureMonth s m).month_summary = s.month_summary := by
  unfold ensureMonth
  by_cases h : (lookupA m s.category_month).isSome <;> simp [h]

theorem ensureMonth_categories (s : LedgerState) (m : String) :
    (ensureMonth s m).categories = s.categories := by
  unfold ensureMonth
  by_cases h : (lookupA m s.category_month).isSome <;> simp [h]

theorem ensureMonth_transactions (s : LedgerState) (m : String) :
    (ensureMonth s m).transactions = s.transactions := by
  unfold ensureMonth
  by_cases h : (lookupA m s.category_month).isSome <;> simp [h]

theorem setEntry_accounts (s : LedgerState) (m c : String) (e : CatEntry) :
    (setEntry s m c e).accounts = s.accounts := rfl

theorem setEntry_categories (s : LedgerState) (m c : String) (e : CatEntry) :
    (setEntry s m c e).categories = s.categories := rfl

theorem setEntry_month_summary (s : LedgerState) (m c : String) (e : CatEntry) :
    (setEntry s m c e).month_summary = s.month_summary := rfl

theorem setEntry_transactions (s : LedgerState) (m c : String) (e : CatEntry) :
    (setEntry s m c e).transactions = s.transactions := rfl

theorem appendTx_entryD (s : LedgerState) (t : Tx) (m c : String) :
    entryD (appendTx s t) m c = entryD s m c := rfl

theorem appendTx_categories (s : LedgerState) (t : Tx) :
    (appendTx s t).categories = s.categories := rfl

/-! ## C2 — record_spend: exact effect on success, no effect on rejection -/

/-- C2: with a valid month text, when both the account and the category are
registered, `record_spend` turns the state into exactly the old state with
the (month, category) entry's `activity` and `available` lowered by `amt`
(`budgeted` untouched) and one transaction of amount `-amt` appended; when
the account (resp. the category) is unknown, the returned state is exactly
the input state and the error is reported. -/
theorem C2_record_spend (s : LedgerState) (mon acc cat : String) (amt : ℚ) (m : String)
    (hm : parse_month mon = .ok m) :
    ((lookupA acc s.accounts).isSome → (lookupA cat s.categories).isSome →
      cmd_spend s mon acc cat amt =
        .ok (appendTx (setEntry s m cat
              { entryD s m cat with
                activity := (entryD s m cat).activity - amt,
                available := (entryD s m cat).available - amt })
              ⟨m, some acc, some cat, -amt⟩,
            [.spent m acc cat amt])) ∧
    (lookupA acc s.accounts = none →
      cmd_spend s mon acc cat amt = .ok (s, [.accountNotFound acc])) ∧
    ((lookupA acc s.accounts).isSome → lookupA cat s.categories = none →
      cmd_spend s mon acc cat amt = .ok (s, [.categoryNotFound cat])) := by
  refine ⟨?_, ?_, ?_⟩
  · intro ha hc
    obtain ⟨a, ha'⟩ := Option.isSome_iff_exists.mp ha
    obtain ⟨c', hc'⟩ := Option.isSome_iff_exists.mp hc
    simp [cmd_spend, hm, ha', hc']
  · intro ha
    simp [cmd_spend, hm, ha]
  · intro ha hc
    obtain ⟨a, ha'⟩ := Option.isSome_iff_exists.mp ha
    simp [cmd_spend, hm, ha', hc]

/-- A two-entity state for exercising `cmd_spend` and `cmd_xfer`. -/
def spendW : LedgerState :=
  { fresh_state with
    accounts := [("Checking", "bank"), ("Savings", "bank")],
    categories := [("Food", none)] }

theorem C2_record_spend_witness :
    parse_month "2024-03" = .ok "2024-03" ∧
    (((lookupA "Checking" spendW.accounts).isSome →
        (lookupA "Food" spendW.categories).isSome →
        cmd_spend spendW "2024-03" "Checking" "Food" 25 =
          .ok (appendTx (setEntry spendW "2024-03" "Food"
                { entryD spendW "2024-03" "Food" with
                  activity := (entryD spendW "2024-03" "Food").activity - 25,
                  available := (entryD spendW "2024-03" "Food").available - 25 })
                ⟨"2024-03", some "Checking", some "Food", -25⟩,
              [.spent "2024-03" "Checking" "Food" 25])) ∧
      (lookupA "Checking" spendW.accounts = none →
        cmd_spend spendW "2024-03" "Checking" "Food" 25 =
          .ok (spendW, [.accountNotFound "Checking"])) ∧
      ((lookupA "Checking" spendW.accounts).isSome →
        lookupA "Food" spendW.categories = none →
        cmd_spend spendW "2024-03" "Checking" "Food" 25 =
          .ok (spendW, [.categoryNotFound "Food"]))) :=
  ⟨rfl, C2_record_spend spendW "2024-03" "Checking" "Food" 25 "2024-03" rfl⟩

/-! ## C4 — record_transfer: pure transaction append -/

/-- C4: with a valid month and both accounts registered, `record_transfer`
returns exactly the input state with two transactions appended (`-amt`
against the source, `+amt` against the destination, category unset); in
particular every `CategoryMonthEntry`, every `MonthSummary` and both
registries are untouched, and the two appended amounts sum to zero. -/
theorem C4_record_transfer (s : LedgerState) (mon src dst : String) (amt : ℚ) (m : String)
    (hm : parse_month mon = .ok m)
    (hsrc : (lookupA src s.accounts).isSome)
    (hdst : (lookupA dst s.accounts).isSome) :
    cmd_xfer s mon src dst amt =
      .ok ({ s with
             transactions :=
               s.transactions ++ [⟨m, some src, none, -amt⟩, ⟨m, some dst, none, amt⟩] },
           [.transferred m src dst amt]) ∧
    (∀ s' ms, cmd_xfer s mon src dst amt = .ok (s', ms) →
      s'.category_month = s.category_month ∧ s'.month_summary = s.month_summary ∧
      s'.accounts = s.accounts ∧ s'.categories = s.categories) ∧
    (Tx.amount ⟨m, some src, none, -amt⟩ + Tx.amount ⟨m, some dst, none, amt⟩ = 0) := by
  have hx : cmd_xfer s mon src dst amt =
      .ok ({ s with
             transactions :=
               s.transactions ++ [⟨m, some src, none, -amt⟩, ⟨m, some dst, none, amt⟩] },
           [.transferred m src dst amt]) := by
    simp only [cmd_xfer, hm]
    rw [if_neg]
    rintro (h | h) <;> simp_all [Option.isSome_iff_ne_none, Option.isNone_iff_eq_none]
  refine ⟨hx, ?_, by simp⟩
  intro s' ms h
  rw [hx] at h
  simp only [Except.ok.injEq, Prod.mk.injEq] at h
  obtain ⟨h1, -⟩ := h
  subst h1
  exact ⟨rfl, rfl, rfl, rfl⟩

theorem C4_record_transfer_witness :
    parse_month "2024-03" = .ok "2024-03" ∧
    (lookupA "Checking" spendW.accounts).isSome ∧
    (lookupA "Savings" spendW.accounts).isSome ∧
    (cmd_xfer spendW "2024-03" "Checking" "Savings" 75 =
      .ok ({ spendW with
             transactions := spendW.transactions ++
               [⟨"2024-03", some "Checking", none, -75⟩,
                ⟨"2024-03", some "Savings", none, 75⟩] },
           [.transferred "2024-03" "Checking" "Savings" 75]) ∧
     (∀ s' ms, cmd_xfer spendW "2024-03" "Checking" "Savings" 75 = .ok (s', ms) →
       s'.category_month = spendW.category_month ∧
       s'.month_summary = spendW.month_summary ∧
       s'.accounts = spendW.accounts ∧ s'.categories = spendW.categories) ∧
     (Tx.amount ⟨"2024-03", some "Checking", none, -75⟩ +
        Tx.amount ⟨"2024-03", some "Savings", none, 75⟩ = 0)) :=
  ⟨rfl, rfl, rfl, C4_record_transfer spendW "2024-03" "Checking" "Savings" 75 "2024-03" rfl rfl rfl⟩

/-! ## C8 — add_category on a hierarchical spec -/

def c8One : LedgerState × List Msg := cmd_cat fresh_state "A:B:C"

def c8Two : LedgerState × List Msg := cmd_cat c8One.1 "A:B:C"

/-- C8: from an empty category set, `add_category("A:B:C")` creates exactly
the categories `A`, `A:B`, `A:B:C` with parents `none`, `A`, `A:B` (and
touches nothing else), reporting all three as added; a second identical call
changes nothing and reports only the leaf `A:B:C` as already existing. -/
theorem C8_add_category :
    c8One = ({ fresh_state with
               categories := [("A", none), ("A:B", some "A"), ("A:B:C", some "A:B")] },
             [.categoryAdded "A", .categoryAdded "A:B", .categoryAdded "A:B:C"]) ∧
    c8Two = (c8One.1, [.categoryExists "A:B:C"]) :=
  ⟨rfl, rfl⟩

/-! ## C9 — load_state with no prior state file -/

/-- C9 (code bug): with no state file present, `load_state` does not return
the fresh empty state: its first expression `DATA.exists()` raises
`AttributeError` because `DATA` is a plain `str` (src 14), not a
`pathlib.Path`.  The fresh-state literal it was meant to return (src 35-41)
does have all five collections present and empty. -/
theorem C9_load_state :
    load_state none = .error (.attributeError "exists") ∧
    fresh_state.accounts = [] ∧ fresh_state.categories = [] ∧
    fresh_state.month_summary = [] ∧ fresh_state.category_month = [] ∧
    fresh_state.transactions = [] :=
  ⟨rfl, rfl, rfl, rfl, rfl, rfl⟩

/-! ## C5 — rounding at the point of assignment -/

def c5State : LedgerState := { fresh_state with categories := [("Food", none)] }

/-- C5 (counterexample): `assign_to_category` stores the raw amount, not the
amount rounded to 2 fractional digits — budgeting `1/1000` into `Food`
stores `budgeted = available = 1/1000` and a transaction of `1/1000`,
while `round(1/1000, 2) = 0 ≠ 1/1000`. -/
theorem C5_counterexample :
    cmd_bud c5State "2024-01" "Food" (1 / 1000) =
      .ok ({ c5State with
             category_month := [("2024-01", [("Food", ⟨1 / 1000, 0, 1 / 1000⟩)])],
             transactions := [⟨"2024-01", none, some "Food", 1 / 1000⟩] },
           [.budgeted "2024-01" "Food" (1 / 1000)]) ∧
    round2 (1 / 1000 : ℚ) = 0 ∧ (1 / 1000 : ℚ) ≠ 0 := by
  refine ⟨?_, by norm_num [round2, roundHalfEven], by norm_num⟩
  have hp : parse_month "2024-01" = Except.ok "2024-01" := rfl
  simp [cmd_bud, hp, c5State, fresh_state, lookupA, entryD, cmEntry, setEntry, appendTx,
    setA, zeroEntry]

/-- C5 (amended): only `set_ready_to_assign` rounds — it stores
`round(amt, 2)` — while `assign_to_category` and `record_spend` apply the
raw, unrounded amount to the month-entry fields and the appended
transaction. -/
theorem C5_rounding (s : LedgerState) (mon acc cat : String) (amt : ℚ) (m : String)
    (hm : parse_month mon = .ok m) :
    (∀ s' ms, cmd_tbb s mon amt = .ok (s', ms) →
      lookupA m s'.month_summary = some (round2 amt)) ∧
    ((lookupA cat s.categories).isSome →
      ∀ s' ms, cmd_bud s mon cat amt = .ok (s', ms) →
        (entryD s' m cat).budgeted = (entryD s m cat).budgeted + amt ∧
        (entryD s' m cat).available = (entryD s m cat).available + amt ∧
        s'.transactions = s.transactions ++ [⟨m, none, some cat, amt⟩]) ∧
    ((lookupA acc s.accounts).isSome → (lookupA cat s.categories).isSome →
      ∀ s' ms, cmd_spend s mon acc cat amt = .ok (s', ms) →
        (entryD s' m cat).activity = (entryD s m cat).activity - amt ∧
        (entryD s' m cat).available = (entryD s m cat).available - amt ∧
        s'.transactions = s.transactions ++ [⟨m, some acc, some cat, -amt⟩]) := by
  refine ⟨?_, ?_, ?_⟩
  · intro s' ms h
    simp only [cmd_tbb, hm, Except.ok.injEq, Prod.mk.injEq] at h
    obtain ⟨h1, -⟩ := h
    subst h1
    simp [lookupA_setA_self]
  · intro hc s' ms h
    obtain ⟨c', hc'⟩ := Option.isSome_iff_exists.mp hc
    simp only [cmd_bud, hm, hc', Option.isNone_some, Bool.false_eq_true, if_false,
      Except.ok.injEq, Prod.mk.injEq] at h
    obtain ⟨h1, -⟩ := h
    subst h1
    refine ⟨?_, ?_, rfl⟩ <;> simp [appendTx_entryD, entryD_setEntry_self]
  · intro ha hc s' ms h
    obtain ⟨a, ha'⟩ := Option.isSome_iff_exists.mp ha
    obtain ⟨c', hc'⟩ := Option.isSome_iff_exists.mp hc
    simp only [cmd_spend, hm, ha', hc', Option.isNone_some, Bool.false_eq_true, if_false,
      Except.ok.injEq, Prod.mk.injEq] at h
    obtain ⟨h1, -⟩ := h
    subst h1
    refine ⟨?_, ?_, rfl⟩ <;> simp [appendTx_entryD, entryD_setEntry_self]

theorem C5_rounding_witness :
    parse_month "2024-03" = .ok "2024-03" ∧
    ((∀ s' ms, cmd_tbb spendW "2024-03" (1 / 1000) = .ok (s', ms) →
       lookupA "2024-03" s'.month_summary = some (round2 (1 / 1000))) ∧
     ((lookupA "Food" spendW.categories).isSome →
       ∀ s' ms, cmd_bud spendW "2024-03" "Food" (1 / 1000) = .ok (s', ms) →
         (entryD s' "2024-03" "Food").budgeted =
           (entryD spendW "2024-03" "Food").budgeted + 1 / 1000 ∧
         (entryD s' "2024-03" "Food").available =
           (entryD spendW "2024-03" "Food").available + 1 / 1000 ∧
         s'.transactions = spendW.transactions ++ [⟨"2024-03", none, some "Food", 1 / 1000⟩]) ∧
     ((lookupA "Checking" spendW.accounts).isSome →
       (lookupA "Food" spendW.categories).isSome →
       ∀ s' ms, cmd_spend spendW "2024-03" "Checking" "Food" (1 / 1000) = .ok (s', ms) →
         (entryD s' "2024-03" "Food").activity =
           (entryD spendW "2024-03" "Food").activity - 1 / 1000 ∧
         (entryD s' "2024-03" "Food").available =
           (entryD spendW "2024-03" "Food").available - 1 / 1000 ∧
         s'.transactions = spendW.transactions ++
           [⟨"2024-03", some "Checking", some "Food", -(1 / 1000)⟩])) :=
  ⟨rfl, C5_rounding spendW "2024-03" "Checking" "Food" (1 / 1000) "2024-03" rfl⟩

/-! ## C6 — end-to-end scenario and the month report -/

/-- The five-operation scenario of the claim, chained left to right. -/
def c6Chain : Except PyExn LedgerState :=
  (cmd_tbb (cmd_cat (cmd_acc fresh_state "Checking" "bank").1 "Food").1 "2024-03" 500).bind
    (fun p => (cmd_bud p.1 "2024-03" "Food" 200).bind
      (fun q => (cmd_spend q.1 "2024-03" "Checking" "Food" 50).map Prod.fst))

/-- The ledger the scenario produces. -/
def c6Final : LedgerState :=
  { accounts := [("Checking", "bank")],
    categories := [("Food", none)],
    month_summary := [("2024-03", 500)],
    category_month := [("2024-03", [("Food", ⟨200, -50, 150⟩)])],
    transactions := [⟨"2024-03", none, some "Food", 200⟩,
                     ⟨"2024-03", some "Checking", some "Food", -50⟩] }

/-- C6 (code bug): the scenario yields the `Food` entry
`{budgeted: 200, activity: -50, available: 150}` and the intended
Remaining-TBB value is `500 - 200 = 300`, but the month report itself does
not succeed: `cmd_rep` raises `NameError` on its first statement (src 205
reads `m`, which is never assigned — the `m = parse_month(mon)` line every
other command has is missing). -/
theorem C6_end_to_end :
    c6Chain = .ok c6Final ∧
    cmEntry c6Final "2024-03" "Food" = some ⟨200, -50, 150⟩ ∧
    cmd_rep c6Final "2024-03" = .error (.nameError "m") ∧
    reportRemaining c6Final "2024-03" = 300 := by
  have hp : parse_month "2024-03" = Except.ok "2024-03" := rfl
  have h500 : round2 500 = 500 := by norm_num [round2, roundHalfEven]
  refine ⟨?_, rfl, rfl, ?_⟩
  · have h2 : (cmd_cat (cmd_acc fresh_state "Checking" "bank").1 "Food").1 =
        { fresh_state with
          accounts := [("Checking", "bank")], categories := [("Food", none)] } := rfl
    have h3 : cmd_tbb { fresh_state with
          accounts := [("Checking", "bank")], categories := [("Food", none)] }
          "2024-03" 500 =
        .ok ({ fresh_state with
               accounts := [("Checking", "bank")], categories := [("Food", none)],
               month_summary := [("2024-03", 500)] },
             [.tbbSet "2024-03" 500]) := by
      simp [cmd_tbb, hp, h500, setA, fresh_state]
    have h4 : cmd_bud { fresh_state with
          accounts := [("Checking", "bank")], categories := [("Food", none)],
          month_summary := [("2024-03", 500)] } "2024-03" "Food" 200 =
        .ok ({ fresh_state with
               accounts := [("Checking", "bank")], categories := [("Food", none)],
               month_summary := [("2024-03", 500)],
               category_month := [("2024-03", [("Food", ⟨200, 0, 200⟩)])],
               transactions := [⟨"2024-03", none, some "Food", 200⟩] },
             [.budgeted "2024-03" "Food" 200]) := by
      norm_num [cmd_bud, hp, lookupA, fresh_state, entryD, cmEntry, setEntry, appendTx,
        setA, zeroEntry]
    have h5 : cmd_spend { fresh_state with
          accounts := [("Checking", "bank")], categories := [("Food", none)],
          month_summary := [("2024-03", 500)],
          category_month := [("2024-03", [("Food", ⟨200, 0, 200⟩)])],
          transactions := [⟨"2024-03", none, some "Food", 200⟩] }
          "2024-03" "Checking" "Food" 50 =
        .ok (c6Final, [.spent "2024-03" "Checking" "Food" 50]) := by
      norm_num [cmd_spend, hp, lookupA, fresh_state, c6Final, entryD, cmEntry, setEntry,
        appendTx, setA, zeroEntry]
    unfold c6Chain
    rw [h2, h3]
    simp only [Except.bind]
    rw [h4]
    simp only [Except.bind]
    rw [h5]
    rfl
  · have hsc : sorted_categories c6Final = ["Food"] := by
      simp [sorted_categories, c6Final, preVisit, childrenOf, lookupA]
    unfold reportRemaining
    rw [hsc]
    norm_num [c6Final, lookupA, zeroEntry]

/-! ## C3 — repeated assign_to_category -/

/-- A sequence of `cmd_bud` calls into the same month text and category,
with no other operation interleaved. -/
def assignSeq (mon cat : String) : LedgerState → List ℚ → Except PyExn LedgerState
  | s, [] => .ok s
  | s, a :: rest =>
    match cmd_bud s mon cat a with
    | .error e => .error e
    | .ok p => assignSeq mon cat p.1 rest

theorem cmd_bud_ok (s : LedgerState) (mon cat : String) (amt : ℚ) (m : String)
    (hm : parse_month mon = .ok m) (hcat : (lookupA cat s.categories).isSome) :
    cmd_bud s mon cat amt =
      .ok (appendTx (setEntry s m cat
            { entryD s m cat with
              budgeted := (entryD s m cat).budgeted + amt,
              available := (entryD s m cat).available + amt })
            ⟨m, none, some cat, amt⟩,
          [.budgeted m cat amt]) := by
  obtain ⟨c', hc'⟩ := Option.isSome_iff_exists.mp hcat
  simp [cmd_bud, hm, hc']

theorem assignSeq_spec (mon cat m : String) (hm : parse_month mon = .ok m) :
    ∀ (amts : List ℚ) (s : LedgerState), (lookupA cat s.categories).isSome →
      ∀ s', assignSeq mon cat s amts = .ok s' →
        entryD s' m cat =
          { entryD s m cat with
            budgeted := (entryD s m cat).budgeted + amts.sum,
            available := (entryD s m cat).available + amts.sum } ∧
        s'.transactions = s.transactions ++ amts.map (fun a => ⟨m, none, some cat, a⟩) ∧
        s'.categories = s.categories := by
  intro amts
  induction amts with
  | nil =>
    intro s hcat s' h
    simp only [assignSeq, Except.ok.injEq] at h
    subst h
    simp
  | cons a rest ih =>
    intro s hcat s' h
    rw [assignSeq, cmd_bud_ok s mon cat a m hm hcat] at h
    set s1 := appendTx (setEntry s m cat
        { entryD s m cat with
          budgeted := (entryD s m cat).budgeted + a,
          available := (entryD s m cat).available + a })
        ⟨m, none, some cat, a⟩ with hs1
    have hcat1 : (lookupA cat s1.categories).isSome := by
      rw [hs1, appendTx_categories, setEntry_categories]
      exact hcat
    obtain ⟨h1, h2, h3⟩ := ih s1 hcat1 s' h
    have he1 : entryD s1 m cat =
        { entryD s m cat with
          budgeted := (entryD s m cat).budgeted + a,
          available := (entryD s m cat).available + a } := by
      rw [hs1, appendTx_entryD, entryD_setEntry_self]
    refine ⟨?_, ?_, ?_⟩
    · rw [h1, he1]
      simp [add_assoc]
    · rw [h2, hs1]
      simp [appendTx, setEntry_transactions]
    · rw [h3, hs1, appendTx_categories, setEntry_categories]

/-- C3: for any run of `assign_to_category` calls with amounts `amts` into
the same registered category and month, starting from a state whose
(month, category) entry is absent or all-zero, the final `available` and
`budgeted` both equal the sum of the amounts, and the transaction log grows
by exactly one transaction `{month, account: none, category, amount}` per
call, in order. -/
theorem C3_assign_sequence (s : LedgerState) (mon cat m : String) (amts : List ℚ)
    (hm : parse_month mon = .ok m)
    (hcat : (lookupA cat s.categories).isSome)
    (h0 : entryD s m cat = zeroEntry) :
    ∀ s', assignSeq mon cat s amts = .ok s' →
      (entryD s' m cat).available = amts.sum ∧
      (entryD s' m cat).budgeted = amts.sum ∧
      s'.transactions = s.transactions ++ amts.map (fun a => ⟨m, none, some cat, a⟩) := by
  intro s' h
  obtain ⟨h1, h2, -⟩ := assignSeq_spec mon cat m hm amts s hcat s' h
  rw [h1, h0]
  simp [zeroEntry]
  exact h2

theorem C3_assign_sequence_witness :
    parse_month "2024-03" = .ok "2024-03" ∧
    (lookupA "Food" spendW.categories).isSome ∧
    entryD spendW "2024-03" "Food" = zeroEntry ∧
    (∀ s', assignSeq "2024-03" "Food" spendW [100, 50, -30] = .ok s' →
      (entryD s' "2024-03" "Food").available = ([100, 50, -30] : List ℚ).sum ∧
      (entryD s' "2024-03" "Food").budgeted = ([100, 50, -30] : List ℚ).sum ∧
      s'.transactions = spendW.transactions ++
        ([100, 50, -30] : List ℚ).map (fun a => ⟨"2024-03", none, some "Food", a⟩)) :=
  ⟨rfl, rfl, rfl,
    C3_assign_sequence spendW "2024-03" "Food" "2024-03" [100, 50, -30] rfl rfl rfl⟩

/-! ## C1 — roll_forward -/

/-- The total overspend `cmd_roll` accumulates over a category list: the sum
of `-available` in the source month over the categories whose `available` is
negative there. -/
def overspendOf (s : LedgerState) (f : String) (cs : List String) : ℚ :=
  (cs.map (fun c =>
    if (entryD s f c).available < 0 then -(entryD s f c).available else 0)).sum

theorem overspendOf_congr (s1 s2 : LedgerState) (f : String) (cs : List String)
    (h : ∀ c ∈ cs, entryD s1 f c = entryD s2 f c) :
    overspendOf s1 f cs = overspendOf s2 f cs := by
  induction cs with
  | nil => rfl
  | cons c rest ih =>
    simp only [overspendOf, List.map_cons, List.sum_cons] at *
    rw [h c (List.mem_cons_self _ _), ih (fun c' hc' => h c' (List.mem_cons_of_mem _ hc'))]

theorem lookupA_isSome_iff_mem {α : Type} (k : String) (l : List (String × α)) :
    (lookupA k l).isSome ↔ k ∈ l.map Prod.fst := by
  induction l with
  | nil => simp [lookupA]
  | cons p rest ih =>
    by_cases hp : p.1 = k
    · simp [lookupA, hp]
    · simp [lookupA, hp, ih, Ne.symm hp]

theorem rollLoop_spec (f t : String) :
    ∀ (cs : List String) (s : LedgerState) (ov : ℚ), cs.Nodup →
      (rollLoop f t cs s ov).1.month_summary = s.month_summary ∧
      (rollLoop f t cs s ov).1.transactions = s.transactions ∧
      (rollLoop f t cs s ov).1.categories = s.categories ∧
      (rollLoop f t cs s ov).2 = ov + overspendOf s f cs ∧
      (∀ m c, (m = t → c ∉ cs) →
        cmEntry (rollLoop f t cs s ov).1 m c = cmEntry s m c) ∧
      (∀ c ∈ cs, cmEntry (rollLoop f t cs s ov).1 t c =
        some { entryD s t c with
               available := (entryD s t c).available + max (entryD s f c).available 0 }) := by
  intro cs
  induction cs with
  | nil =>
    intro s ov _
    refine ⟨rfl, rfl, rfl, by simp [overspendOf, rollLoop], fun m c _ => rfl, by simp⟩
  | cons c0 rest ih =>
    intro s ov hnd
    obtain ⟨hc0, hnd'⟩ := List.nodup_cons.mp hnd
    rw [rollLoop]
    set av := (entryD s f c0).available with hav
    set s1 := setEntry s t c0
      { entryD s t c0 with available := (entryD s t c0).available + max av 0 } with hs1
    set ov1 := if av < 0 then ov + -av else ov with hov1
    have hne : ∀ c', c' ∈ rest → (t ≠ f ∨ c0 ≠ c') ∧ (t ≠ t → c0 ≠ c') := by
      intro c' hc'
      constructor
      · by_cases hft : t = f
        · exact Or.inr (fun hq => hc0 (hq ▸ hc'))
        · exact Or.inl hft
      · intro hq
        exact absurd rfl hq
    have hf1 : ∀ c' ∈ rest, entryD s1 f c' = entryD s f c' := by
      intro c' hc'
      exact entryD_setEntry_ne _ _ _ _ _ _ (hne c' hc').1
    have ht1 : ∀ c' ∈ rest, entryD s1 t c' = entryD s t c' := by
      intro c' hc'
      exact entryD_setEntry_ne _ _ _ _ _ _ (Or.inr (fun hq => hc0 (hq ▸ hc')))
    obtain ⟨i1, i2, i3, i4, i5, i6⟩ := ih s1 ov1 hnd'
    refine ⟨?_, ?_, ?_, ?_, ?_, ?_⟩
    · rw [i1, hs1, setEntry_month_summary]
    · rw [i2, hs1, setEntry_transactions]
    · rw [i3, hs1, setEntry_categories]
    · rw [i4, hov1]
      have : overspendOf s1 f rest = overspendOf s f rest := overspendOf_congr _ _ _ _ hf1
      rw [this]
      simp only [overspendOf, List.map_cons, List.sum_cons, ← hav]
      split <;> ring
    · intro m c hmc
      have h1 : cmEntry (rollLoop f t rest s1 ov1).1 m c = cmEntry s1 m c :=
        i5 m c (fun hm => fun hcr => hmc hm (List.mem_cons_of_mem _ hcr))
      rw [h1, hs1]
      refine cmEntry_setEntry_ne _ _ _ _ _ _ ?_
      by_cases hm : m = t
      · exact Or.inr (fun hq => hmc hm (hq ▸ List.mem_cons_self _ _))
      · exact Or.inl (fun hq => hm hq.symm)
    · intro c hc
      rcases List.mem_cons.mp hc with hc | hc
      · subst hc
        have h1 : cmEntry (rollLoop f t rest s1 ov1).1 t c = cmEntry s1 t c :=
          i5 t c (fun _ => hc0)
        rw [h1, hs1, cmEntry_setEntry_self]
      · rw [i6 c hc, ht1 c hc, hf1 c hc]

/-- C1: with valid month texts, `roll_forward` gives every registered
category a destination-month entry equal to the old destination entry
(all-zero when absent) with `max(source available, 0)` added to `available`
only — `budgeted` and `activity` keep their old destination values — and it
sets the destination `ready_to_assign` to its previous value (0 when the
`MonthSummary` was missing) minus the total overspend, i.e. minus the sum
of `-available` over the categories whose source-month `available` (0 when
absent) is negative.  No transaction is appended. -/
theorem C1_roll_forward (s : LedgerState) (frm toMon f t : String)
    (hf : parse_month frm = .ok f) (ht : parse_month toMon = .ok t)
    (hnd : (s.categories.map Prod.fst).Nodup) :
    ∀ s' ms, cmd_roll s frm toMon = .ok (s', ms) →
      (∀ c, (lookupA c s.categories).isSome →
        cmEntry s' t c = some
          { entryD s t c with
            available := (entryD s t c).available + max (entryD s f c).available 0 }) ∧
      lookupA t s'.month_summary =
        some ((lookupA t s.month_summary).getD 0 -
          overspendOf s f (s.categories.map Prod.fst)) ∧
      s'.transactions = s.transactions := by
  intro s' ms h
  simp only [cmd_roll, hf, ht, Except.ok.injEq, Prod.mk.injEq] at h
  obtain ⟨h1, -⟩ := h
  subst h1
  set s1 := ensureMonth (ensureMonth s f) t with hs1
  have hcats : s1.categories = s.categories := by
    rw [hs1, ensureMonth_categories, ensureMonth_categories]
  have hcm : ∀ m c, cmEntry s1 m c = cmEntry s m c := by
    intro m c
    rw [hs1, cmEntry_ensureMonth, cmEntry_ensureMonth]
  have hed : ∀ m c, entryD s1 m c = entryD s m c := by
    intro m c
    unfold entryD
    rw [hcm]
  have hms : s1.month_summary = s.month_summary := by
    rw [hs1, ensureMonth_month_summary, ensureMonth_month_summary]
  have htx : s1.transactions = s.transactions := by
    rw [hs1, ensureMonth_transactions, ensureMonth_transactions]
  rw [hcats]
  obtain ⟨r1, r2, -, r4, -, r6⟩ := rollLoop_spec f t (s.categories.map Prod.fst) s1 0 hnd
  refine ⟨?_, ?_, ?_⟩
  · intro c hc
    have hcmem : c ∈ s.categories.map Prod.fst := (lookupA_isSome_iff_mem c _).mp hc
    have := r6 c hcmem
    rw [hed, hed] at this
    exact this
  · rw [lookupA_setA_self, r4, r1, hms]
    have : overspendOf s1 f (s.categories.map Prod.fst) =
        overspendOf s f (s.categories.map Prod.fst) :=
      overspendOf_congr _ _ _ _ (fun c _ => hed f c)
    rw [this]
    ring_nf
  · rw [r2, htx]

/-- The rollover scenario of spec §8: `Groceries` overspent by 15 in
`2024-01`, `Rent` has 40 left. -/
def rollW : LedgerState :=
  { fresh_state with
    categories := [("Groceries", none), ("Rent", none)],
    category_month :=
      [("2024-01", [("Groceries", ⟨0, -15, -15⟩), ("Rent", ⟨40, 0, 40⟩)])] }

theorem C1_roll_forward_witness :
    parse_month "2024-01" = .ok "2024-01" ∧
    parse_month "2024-02" = .ok "2024-02" ∧
    (rollW.categories.map Prod.fst).Nodup ∧
    (∀ s' ms, cmd_roll rollW "2024-01" "2024-02" = .ok (s', ms) →
      (∀ c, (lookupA c rollW.categories).isSome →
        cmEntry s' "2024-02" c = some
          { entryD rollW "2024-02" c with
            available := (entryD rollW "2024-02" c).available +
              max (entryD rollW "2024-01" c).available 0 }) ∧
      lookupA "2024-02" s'.month_summary =
        some ((lookupA "2024-02" rollW.month_summary).getD 0 -
          overspendOf rollW "2024-01" (rollW.categories.map Prod.fst)) ∧
      s'.transactions = rollW.transactions) :=
  ⟨rfl, rfl, by decide,
    C1_roll_forward rollW "2024-01" "2024-02" "2024-01" "2024-02" rfl rfl (by decide)⟩

/-! ## C10 — the available = budgeted + activity invariant -/

/-- Every stored `CategoryMonthEntry` satisfies
`available = budgeted + activity`. -/
def entryInvariant (s : LedgerState) : Prop :=
  ∀ p ∈ s.category_month, ∀ q ∈ p.2, q.2.available = q.2.budgeted + q.2.activity

/-- States reachable from the fresh empty state by the six operations other
than `roll_forward` (a printed-and-returned validation failure and a raised
`ValueError` both leave the state unchanged, so only `.ok` outcomes step). -/
inductive Reachable : LedgerState → Prop where
  | init : Reachable fresh_state
  | acc (s : LedgerState) (n typ : String) (s' : LedgerState) (ms : List Msg) :
      Reachable s → cmd_acc s n typ = (s', ms) → Reachable s'
  | cat (s : LedgerState) (spec : String) (s' : LedgerState) (ms : List Msg) :
      Reachable s → cmd_cat s spec = (s', ms) → Reachable s'
  | tbb (s : LedgerState) (mon : String) (amt : ℚ) (s' : LedgerState) (ms : List Msg) :
      Reachable s → cmd_tbb s mon amt = .ok (s', ms) → Reachable s'
  | bud (s : LedgerState) (mon cat : String) (amt : ℚ) (s' : LedgerState) (ms : List Msg) :
      Reachable s → cmd_bud s mon cat amt = .ok (s', ms) → Reachable s'
  | spend (s : LedgerState) (mon acc cat : String) (amt : ℚ) (s' : LedgerState)
      (ms : List Msg) :
      Reachable s → cmd_spend s mon acc cat amt = .ok (s', ms) → Reachable s'
  | xfer (s : LedgerState) (mon src dst : String) (amt : ℚ) (s' : LedgerState)
      (ms : List Msg) :
      Reachable s → cmd_xfer s mon src dst amt = .ok (s', ms) → Reachable s'

theorem entryInvariant_of_eq (s s' : LedgerState)
    (h : s'.category_month = s.category_month) (hs : entryInvariant s) :
    entryInvariant s' := by
  unfold entryInvariant at *
  rw [h]
  exact hs

theorem entryInvariant_entryD (s : LedgerState) (hs : entryInvariant s) (m c : String) :
    (entryD s m c).available = (entryD s m c).budgeted + (entryD s m c).activity := by
  unfold entryD cmEntry
  cases hm : lookupA m s.category_month with
  | none => simp [lookupA, zeroEntry]
  | some cm =>
    simp only [Option.getD_some]
    cases hc : lookupA c cm with
    | none => simp [zeroEntry]
    | some e =>
      simp only [Option.getD_some]
      exact hs (m, cm) (lookupA_mem _ _ _ hm) (c, e) (lookupA_mem _ _ _ hc)

theorem entryInvariant_setEntry (s : LedgerState) (m c : String) (e : CatEntry)
    (hs : entryInvariant s) (he : e.available = e.budgeted + e.activity) :
    entryInvariant (setEntry s m c e) := by
  intro p hp q hq
  unfold setEntry at hp
  simp only at hp
  rcases mem_setA _ _ _ _ hp with hp' | hp'
  · subst hp'
    simp only at hq
    rcases mem_setA _ _ _ _ hq with hq' | hq'
    · subst hq'
      exact he
    · cases hm : lookupA m s.category_month with
      | none => simp [hm] at hq'
      | some cm =>
        rw [hm] at hq'
        exact hs (m, cm) (lookupA_mem _ _ _ hm) q hq'
  · exact hs p hp' q hq

theorem entryInvariant_appendTx (s : LedgerState) (t : Tx)
    (hs : entryInvariant s) : entryInvariant (appendTx s t) := hs

/-- C10: in every state reachable from the empty state by `add_account`,
`add_category`, `set_ready_to_assign`, `assign_to_category`, `record_spend`
and `record_transfer` (no rollover), every stored `CategoryMonthEntry`
satisfies `available = budgeted + activity`: lazy creation mints all-zero
entries, `cmd_bud` moves `budgeted` and `available` together, `cmd_spend`
moves `activity` and `available` together, and no other operation touches
`category_month`. -/
theorem C10_entry_invariant (s : LedgerState) (h : Reachable s) : entryInvariant s := by
  induction h with
  | init =>
    intro p hp
    simp [fresh_state] at hp
  | acc s n typ s' ms _ hstep ih =>
    refine entryInvariant_of_eq s s' ?_ ih
    have : (cmd_acc s n typ).1.category_month = s.category_month := by
      unfold cmd_acc
      split_ifs <;> rfl
    rw [hstep] at this
    exact this
  | cat s spec s' ms _ hstep ih =>
    refine entryInvariant_of_eq s s' ?_ ih
    have : (cmd_cat s spec).1.category_month = s.category_month := rfl
    rw [hstep] at this
    exact this
  | tbb s mon amt s' ms _ hstep ih =>
    refine entryInvariant_of_eq s s' ?_ ih
    cases hp : parse_month mon with
    | error e => simp [cmd_tbb, hp] at hstep
    | ok m =>
      simp only [cmd_tbb, hp, Except.ok.injEq, Prod.mk.injEq] at hstep
      obtain ⟨h1, -⟩ := hstep
      rw [← h1]
  | bud s mon ct amt s' ms _ hstep ih =>
    cases hp : parse_month mon with
    | error e => simp [cmd_bud, hp] at hstep
    | ok m =>
      by_cases hc : (lookupA ct s.categories).isNone
      · simp only [cmd_bud, hp, hc, if_true, Except.ok.injEq, Prod.mk.injEq] at hstep
        obtain ⟨h1, -⟩ := hstep
        exact entryInvariant_of_eq s s' (by rw [← h1]) ih
      · simp only [cmd_bud, hp, hc, if_false, Except.ok.injEq, Prod.mk.injEq] at hstep
        obtain ⟨rfl, -⟩ := hstep
        refine entryInvariant_appendTx _ _ ?_
        refine entryInvariant_setEntry s m ct _ ih ?_
        have := entryInvariant_entryD s ih m ct
        simp only
        rw [this]
        ring
  | spend s mon ac ct amt s' ms _ hstep ih =>
    cases hp : parse_month mon with
    | error e => simp [cmd_spend, hp] at hstep
    | ok m =>
      by_cases ha : (lookupA ac s.accounts).isNone
      · simp only [cmd_spend, hp, ha, if_true, Except.ok.injEq, Prod.mk.injEq] at hstep
        obtain ⟨h1, -⟩ := hstep
        exact entryInvariant_of_eq s s' (by rw [← h1]) ih
      · by_cases hc : (lookupA ct s.categories).isNone
        · simp only [cmd_spend, hp, ha, hc, if_false, if_true, Except.ok.injEq,
            Prod.mk.injEq] at hstep
          obtain ⟨rfl, -⟩ := hstep
          exact ih
        · simp only [cmd_spend, hp, ha, hc, if_false, Except.ok.injEq,
            Prod.mk.injEq] at hstep
          obtain ⟨rfl, -⟩ := hstep
          refine entryInvariant_appendTx _ _ ?_
          refine entryInvariant_setEntry s m ct _ ih ?_
          have := entryInvariant_entryD s ih m ct
          simp only
          rw [this]
          ring
  | xfer s mon src dst amt s' ms _ hstep ih =>
    refine entryInvariant_of_eq s s' ?_ ih
    cases hp : parse_month mon with
    | error e => simp [cmd_xfer, hp] at hstep
    | ok m =>
      by_cases hsd : lookupA src s.accounts = none ∨ lookupA dst s.accounts = none
      · have : (lookupA src s.accounts).isNone = true ∨ (lookupA dst s.accounts).isNone = true := by
          rcases hsd with h | h <;> simp [h]
        simp only [cmd_xfer, hp] at hstep
        rw [if_pos] at hstep
        · simp only [Except.ok.injEq, Prod.mk.injEq] at hstep
          obtain ⟨h1, -⟩ := hstep
          rw [← h1]
        · simpa using this
      · push_neg at hsd
        simp only [cmd_xfer, hp] at hstep
        rw [if_neg] at hstep
        · simp only [Except.ok.injEq, Prod.mk.injEq] at hstep
          obtain ⟨h1, -⟩ := hstep
          rw [← h1]
        · simp [Option.isNone_iff_eq_none, hsd.1, hsd.2]

theorem C10_entry_invariant_witness :
    Reachable fresh_state ∧ entryInvariant fresh_state :=
  ⟨Reachable.init, C10_entry_invariant fresh_state Reachable.init⟩

/-! ## C7 — canonical renderings of a month parse back to the same key -/

/-- The four-digit zero-padded year rendering (the `%Y` field of a valid
month text). -/
def render4 (y : Nat) : List Char :=
  [digitCh (y / 1000 % 10), digitCh (y / 100 % 10), digitCh (y / 10 % 10),
   digitCh (y % 10)]

/-- The two-digit zero-padded month rendering (the `%m` field). -/
def render2 (m : Nat) : List Char := [digitCh (m / 10 % 10), digitCh (m % 10)]

theorem digitCh_not_space (d : Nat) (h : d < 10) : isSpaceCh (digitCh d) = false := by
  interval_cases d <;> decide

theorem isDigitCh_digitCh (d : Nat) (h : d < 10) : isDigitCh (digitCh d) = true := by
  interval_cases d <;> decide

theorem digitVal_digitCh (d : Nat) (h : d < 10) : digitVal (digitCh d) = d := by
  interval_cases d <;> decide

theorem render4_no_space (y : Nat) : ∀ c ∈ render4 y, isSpaceCh c = false := by
  intro c hc
  simp only [render4, List.mem_cons, List.not_mem_nil, or_false] at hc
  rcases hc with rfl | rfl | rfl | rfl <;>
    exact digitCh_not_space _ (Nat.mod_lt _ (by norm_num))

theorem render2_no_space (m : Nat) : ∀ c ∈ render2 m, isSpaceCh c = false := by
  intro c hc
  simp only [render2, List.mem_cons, List.not_mem_nil, or_false] at hc
  rcases hc with rfl | rfl <;>
    exact digitCh_not_space _ (Nat.mod_lt _ (by norm_num))

theorem parse4_render4 (y : Nat) (h1 : 1 ≤ y) (h2 : y ≤ 9999) :
    parse4 (digitCh (y / 1000 % 10)) (digitCh (y / 100 % 10)) (digitCh (y / 10 % 10))
      (digitCh (y % 10)) = some y := by
  have d1 : y / 1000 % 10 < 10 := Nat.mod_lt _ (by norm_num)
  have d2 : y / 100 % 10 < 10 := Nat.mod_lt _ (by norm_num)
  have d3 : y / 10 % 10 < 10 := Nat.mod_lt _ (by norm_num)
  have d4 : y % 10 < 10 := Nat.mod_lt _ (by norm_num)
  unfold parse4
  rw [isDigitCh_digitCh _ d1, isDigitCh_digitCh _ d2, isDigitCh_digitCh _ d3,
    isDigitCh_digitCh _ d4]
  rw [digitVal_digitCh _ d1, digitVal_digitCh _ d2, digitVal_digitCh _ d3,
    digitVal_digitCh _ d4]
  have hsum : 1000 * (y / 1000 % 10) + 100 * (y / 100 % 10) + 10 * (y / 10 % 10) +
      y % 10 = y := by omega
  simp [hsum, h1]

theorem parseM2_render2 (m : Nat) (h1 : 1 ≤ m) (h2 : m ≤ 12) :
    parseM2 (digitCh (m / 10 % 10)) (digitCh (m % 10)) = some m := by
  have d1 : m / 10 % 10 < 10 := Nat.mod_lt _ (by norm_num)
  have d2 : m % 10 < 10 := Nat.mod_lt _ (by norm_num)
  unfold parseM2
  rw [isDigitCh_digitCh _ d1, isDigitCh_digitCh _ d2,
    digitVal_digitCh _ d1, digitVal_digitCh _ d2]
  have hsum : 10 * (m / 10 % 10) + m % 10 = m := by omega
  simp only [Bool.and_self, if_true, hsum]
  simp [h1, h2]

theorem stripChars_sandwich (a b : Char) (l : List Char)
    (ha : isSpaceCh a = false) (hb : isSpaceCh b = false) :
    stripChars (a :: l ++ [b]) = a :: l ++ [b] := by
  unfold stripChars
  have h1 : List.dropWhile isSpaceCh (a :: (l ++ [b])) = a :: (l ++ [b]) := by
    simp [List.dropWhile_cons, ha]
  rw [show (a :: l ++ [b] : List Char) = a :: (l ++ [b]) from rfl, h1]
  have h2 : (a :: (l ++ [b])).reverse = b :: (l.reverse ++ [a]) := by simp
  rw [h2]
  have h3 : List.dropWhile isSpaceCh (b :: (l.reverse ++ [a])) = b :: (l.reverse ++ [a]) := by
    simp [List.dropWhile_cons, hb]
  rw [h3, ← h2, List.reverse_reverse]

theorem wordsAux_token (t : List Char) (ht : ∀ c ∈ t, isSpaceCh c = false) :
    ∀ (rest acc : List Char), wordsAux (t ++ rest) acc = wordsAux rest (t.reverse ++ acc) := by
  induction t with
  | nil => intro rest acc; simp
  | cons c ct ih =>
    intro rest acc
    have hc : isSpaceCh c = false := ht c (List.mem_cons_self _ _)
    rw [List.cons_append]
    simp only [wordsAux, hc, Bool.false_eq_true, if_false]
    rw [ih (fun c' h' => ht c' (List.mem_cons_of_mem _ h')) rest (c :: acc)]
    simp

theorem wordsAux_all_token (t : List Char) (ht : ∀ c ∈ t, isSpaceCh c = false)
    (hne : t ≠ []) : wordsAux t [] = [t] := by
  conv_lhs => rw [← List.append_nil t]
  rw [wordsAux_token t ht [] []]
  obtain ⟨c0, ct, rfl⟩ := List.exists_cons_of_ne_nil hne
  simp [wordsAux]

theorem wordsOf_single (t : List Char) (ht : ∀ c ∈ t, isSpaceCh c = false)
    (hne : t ≠ []) : wordsOf t = [t] := by
  unfold wordsOf
  exact wordsAux_all_token t ht hne

theorem wordsOf_pair (t1 t2 : List Char)
    (h1 : ∀ c ∈ t1, isSpaceCh c = false) (h2 : ∀ c ∈ t2, isSpaceCh c = false)
    (hne1 : t1 ≠ []) (hne2 : t2 ≠ []) :
    wordsOf (t1 ++ ' ' :: t2) = [t1, t2] := by
  unfold wordsOf
  rw [wordsAux_token t1 h1 (' ' :: t2) []]
  obtain ⟨c0, ct, rfl⟩ := List.exists_cons_of_ne_nil hne1
  simp only [wordsAux, show isSpaceCh ' ' = true from rfl, if_true]
  have hacc : (((c0 :: ct).reverse ++ [] : List Char)).isEmpty = false := by simp
  rw [hacc]
  simp only [Bool.false_eq_true, if_false]
  rw [wordsAux_all_token t2 h2 hne2]
  simp

theorem idxOf_some (k : List Char) (names : List (List Char)) :
    ∀ i, idxOf k names = some i → names.get? i = some k := by
  induction names with
  | nil => intro i h; simp [idxOf] at h
  | cons n rest ih =>
    intro i h
    by_cases hn : n = k
    · simp only [idxOf, hn, if_true, Option.some.injEq] at h
      subst h
      simp [hn]
    · simp only [idxOf, hn, if_false] at h
      cases hr : idxOf k rest with
      | none => rw [hr] at h; simp at h
      | some j =>
        rw [hr] at h
        have h' : j + 1 = i := by simpa using h
        subst h'
        simpa using ih j hr

theorem fmtName_on_render (names : List (List Char)) (nm : List Char) (i y : Nat)
    (hidx : idxOf (lowerChars nm) names = some i)
    (hsp : ∀ c ∈ nm, isSpaceCh c = false) (hne : nm ≠ [])
    (h1 : 1 ≤ y) (h2 : y ≤ 9999) :
    fmtName names (nm ++ ' ' :: render4 y) = some (y, i + 1) := by
  unfold fmtName
  rw [show (nm ++ ' ' :: render4 y : List Char) =
      nm ++ ' ' :: [digitCh (y / 1000 % 10), digitCh (y / 100 % 10),
        digitCh (y / 10 % 10), digitCh (y % 10)] from rfl]
  rw [wordsOf_pair nm _ hsp (by exact render4_no_space y) hne (by simp)]
  simp only [hidx, parse4_render4 y h1 h2]

theorem strip_name_render (nm : List Char) (y : Nat)
    (hsp : ∀ c ∈ nm, isSpaceCh c = false) (hne : nm ≠ []) :
    stripChars (nm ++ ' ' :: render4 y) = nm ++ ' ' :: render4 y := by
  obtain ⟨n0, ntail, rfl⟩ := List.exists_cons_of_ne_nil hne
  have ha : isSpaceCh n0 = false := hsp n0 (List.mem_cons_self _ _)
  have hb : isSpaceCh (digitCh (y % 10)) = false :=
    digitCh_not_space _ (Nat.mod_lt _ (by norm_num))
  have hform : ((n0 :: ntail) ++ ' ' :: render4 y : List Char) =
      n0 :: (ntail ++ [' ', digitCh (y / 1000 % 10), digitCh (y / 100 % 10),
        digitCh (y / 10 % 10)]) ++ [digitCh (y % 10)] := by
    simp [render4]
  rw [hform, stripChars_sandwich _ _ _ ha hb, ← hform]

theorem strip_ym_render (sep : Char) (y m : Nat) :
    stripChars (render4 y ++ sep :: render2 m) = render4 y ++ sep :: render2 m := by
  have ha : isSpaceCh (digitCh (y / 1000 % 10)) = false :=
    digitCh_not_space _ (Nat.mod_lt _ (by norm_num))
  have hb : isSpaceCh (digitCh (m % 10)) = false :=
    digitCh_not_space _ (Nat.mod_lt _ (by norm_num))
  have hform : (render4 y ++ sep :: render2 m : List Char) =
      digitCh (y / 1000 % 10) :: [digitCh (y / 100 % 10), digitCh (y / 10 % 10),
        digitCh (y % 10), sep, digitCh (m / 10 % 10)] ++ [digitCh (m % 10)] := by
    simp [render4, render2]
  rw [hform, stripChars_sandwich _ _ _ ha hb, ← hform]

theorem fmtName_on_ym (names : List (List Char)) (sep : Char) (y m : Nat)
    (hsep : isSpaceCh sep = false) :
    fmtName names (render4 y ++ sep :: render2 m) = none := by
  unfold fmtName
  have hsp : ∀ c ∈ (render4 y ++ sep :: render2 m : List Char), isSpaceCh c = false := by
    intro c hc
    rcases List.mem_append.mp hc with hc | hc
    · exact render4_no_space y c hc
    · rcases List.mem_cons.mp hc with rfl | hc
      · exact hsep
      · exact render2_no_space m c hc
  rw [wordsOf_single _ hsp (by simp [render4])]

theorem fmtYM_on_render (sep : Char) (y m : Nat)
    (h1 : 1 ≤ y) (h2 : y ≤ 9999) (hm1 : 1 ≤ m) (hm2 : m ≤ 12) :
    fmtYM sep (render4 y ++ sep :: render2 m) = some (y, m) := by
  rw [show (render4 y ++ sep :: render2 m : List Char) =
      [digitCh (y / 1000 % 10), digitCh (y / 100 % 10), digitCh (y / 10 % 10),
       digitCh (y % 10), sep, digitCh (m / 10 % 10), digitCh (m % 10)] from by
    simp [render4, render2]]
  unfold fmtYM
  simp [parse4_render4 y h1 h2, parseM2_render2 m hm1 hm2]

theorem fmtYM_on_other (sep sep' : Char) (y m : Nat) (hne : sep' ≠ sep) :
    fmtYM sep (render4 y ++ sep' :: render2 m) = none := by
  rw [show (render4 y ++ sep' :: render2 m : List Char) =
      [digitCh (y / 1000 % 10), digitCh (y / 100 % 10), digitCh (y / 10 % 10),
       digitCh (y % 10), sep', digitCh (m / 10 % 10), digitCh (m % 10)] from by
    simp [render4, render2]]
  unfold fmtYM
  simp [hne]

theorem parse_month_abbrev (nm : List Char) (i y : Nat)
    (hidx : idxOf (lowerChars nm) abbrevNames = some i)
    (hsp : ∀ c ∈ nm, isSpaceCh c = false) (hne : nm ≠ [])
    (h1 : 1 ≤ y) (h2 : y ≤ 9999) :
    parse_month (String.mk (nm ++ ' ' :: render4 y)) = .ok (monthKey y (i + 1)) := by
  unfold parse_month
  rw [show (String.mk (nm ++ ' ' :: render4 y)).data = nm ++ ' ' :: render4 y from rfl]
  rw [strip_name_render nm y hsp hne]
  rw [fmtName_on_render abbrevNames nm i y hidx hsp hne h1 h2]

theorem parse_month_fullname (nm : List Char) (i y : Nat)
    (hidx : idxOf (lowerChars nm) fullNames = some i)
    (hsp : ∀ c ∈ nm, isSpaceCh c = false) (hne : nm ≠ [])
    (h1 : 1 ≤ y) (h2 : y ≤ 9999) :
    parse_month (String.mk (nm ++ ' ' :: render4 y)) = .ok (monthKey y (i + 1)) := by
  have hget := idxOf_some _ _ _ hidx
  have hilt : i < 12 := by
    rcases List.get?_eq_some.mp hget with ⟨hl, -⟩
    simpa [fullNames] using hl
  have htab : ∀ j, j < 12 →
      (idxOf ((fullNames.get? j).getD []) abbrevNames = none ∨
       idxOf ((fullNames.get? j).getD []) abbrevNames = some j) := by decide
  have hkeyD : (fullNames.get? i).getD [] = lowerChars nm := by rw [hget]; rfl
  unfold parse_month
  rw [show (String.mk (nm ++ ' ' :: render4 y)).data = nm ++ ' ' :: render4 y from rfl]
  rw [strip_name_render nm y hsp hne]
  rcases htab i hilt with habb | habb
  · rw [hkeyD] at habb
    have hnone : fmtName abbrevNames (nm ++ ' ' :: render4 y) = none := by
      unfold fmtName
      rw [show (nm ++ ' ' :: render4 y : List Char) =
          nm ++ ' ' :: [digitCh (y / 1000 % 10), digitCh (y / 100 % 10),
            digitCh (y / 10 % 10), digitCh (y % 10)] from rfl]
      rw [wordsOf_pair nm _ hsp (by exact render4_no_space y) hne (by simp)]
      simp [habb]
    rw [hnone, fmtName_on_render fullNames nm i y hidx hsp hne h1 h2]
  · rw [hkeyD] at habb
    rw [fmtName_on_render abbrevNames nm i y habb hsp hne h1 h2]

theorem parse_month_dash (y m : Nat)
    (h1 : 1 ≤ y) (h2 : y ≤ 9999) (hm1 : 1 ≤ m) (hm2 : m ≤ 12) :
    parse_month (String.mk (render4 y ++ '-' :: render2 m)) = .ok (monthKey y m) := by
  unfold parse_month
  rw [show (String.mk (render4 y ++ '-' :: render2 m)).data =
      render4 y ++ '-' :: render2 m from rfl]
  rw [strip_ym_render '-' y m]
  rw [fmtName_on_ym abbrevNames '-' y m (by decide)]
  rw [fmtName_on_ym fullNames '-' y m (by decide)]
  rw [fmtYM_on_render '-' y m h1 h2 hm1 hm2]

theorem parse_month_slash (y m : Nat)
    (h1 : 1 ≤ y) (h2 : y ≤ 9999) (hm1 : 1 ≤ m) (hm2 : m ≤ 12) :
    parse_month (String.mk (render4 y ++ '/' :: render2 m)) = .ok (monthKey y m) := by
  unfold parse_month
  rw [show (String.mk (render4 y ++ '/' :: render2 m)).data =
      render4 y ++ '/' :: render2 m from rfl]
  rw [strip_ym_render '/' y m]
  rw [fmtName_on_ym abbrevNames '/' y m (by decide)]
  rw [fmtName_on_ym fullNames '/' y m (by decide)]
  rw [fmtYM_on_other '-' '/' y m (by decide)]
  rw [fmtYM_on_render '/' y m h1 h2 hm1 hm2]

/-- C7: all four accepted renderings of the same calendar month — an
abbreviated-name token (any letter case) plus four-digit year, a full-name
token plus four-digit year, `YYYY-MM` and `YYYY/MM` — normalize to the
identical canonical key `monthKey y m`; the formats are tried in that fixed
priority order (the name tables only overlap at "may", where both yield the
same month, so the priority choice never changes the result); and an input
that matches none of the four formats fails with the `ValueError` and
nothing else — `parse_month` is a pure function of its argument. -/
theorem C7_normalize (nmA nmF : List Char) (y m : Nat)
    (hy1 : 1 ≤ y) (hy2 : y ≤ 9999) (hm1 : 1 ≤ m) (hm2 : m ≤ 12)
    (hA : idxOf (lowerChars nmA) abbrevNames = some (m - 1))
    (hF : idxOf (lowerChars nmF) fullNames = some (m - 1))
    (hAsp : ∀ c ∈ nmA, isSpaceCh c = false) (hAne : nmA ≠ [])
    (hFsp : ∀ c ∈ nmF, isSpaceCh c = false) (hFne : nmF ≠ []) :
    parse_month (String.mk (nmA ++ ' ' :: render4 y)) = .ok (monthKey y m) ∧
    parse_month (String.mk (nmF ++ ' ' :: render4 y)) = .ok (monthKey y m) ∧
    parse_month (String.mk (render4 y ++ '-' :: render2 m)) = .ok (monthKey y m) ∧
    parse_month (String.mk (render4 y ++ '/' :: render2 m)) = .ok (monthKey y m) ∧
    (∀ t : String,
      fmtName abbrevNames (stripChars t.data) = none →
      fmtName fullNames (stripChars t.data) = none →
      fmtYM '-' (stripChars t.data) = none →
      fmtYM '/' (stripChars t.data) = none →
      parse_month t = .error (.valueError "Unrecognised month format")) := by
  have hm' : m - 1 + 1 = m := by omega
  refine ⟨?_, ?_, parse_month_dash y m hy1 hy2 hm1 hm2,
    parse_month_slash y m hy1 hy2 hm1 hm2, ?_⟩
  · have := parse_month_abbrev nmA (m - 1) y hA hAsp hAne hy1 hy2
    rwa [hm'] at this
  · have := parse_month_fullname nmF (m - 1) y hF hFsp hFne hy1 hy2
    rwa [hm'] at this
  · intro t ha hb hc hd
    unfold parse_month
    rw [ha, hb, hc, hd]

theorem C7_normalize_witness :
    (1 ≤ 2024 ∧ 2024 ≤ 9999 ∧ 1 ≤ 3 ∧ 3 ≤ 12 ∧
     idxOf (lowerChars ("Mar").data) abbrevNames = some (3 - 1) ∧
     idxOf (lowerChars ("March").data) fullNames = some (3 - 1)) ∧
    (parse_month (String.mk (("Mar").data ++ ' ' :: render4 2024)) =
        .ok (monthKey 2024 3) ∧
     parse_month (String.mk (("March").data ++ ' ' :: render4 2024)) =
        .ok (monthKey 2024 3) ∧
     parse_month (String.mk (render4 2024 ++ '-' :: render2 3)) =
        .ok (monthKey 2024 3) ∧
     parse_month (String.mk (render4 2024 ++ '/' :: render2 3)) =
        .ok (monthKey 2024 3) ∧
     (∀ t : String,
       fmtName abbrevNames (stripChars t.data) = none →
       fmtName fullNames (stripChars t.data) = none →
       fmtYM '-' (stripChars t.data) = none →
       fmtYM '/' (stripChars t.data) = none →
       parse_month t = .error (.valueError "Unrecognised month format"))) :=
  ⟨⟨by norm_num, by norm_num, by norm_num, by norm_num, by decide, by decide⟩,
   C7_normalize ("Mar").data ("March").data 2024 3 (by norm_num) (by norm_num)
     (by norm_num) (by norm_num) (by decide) (by decide) (by decide) (by decide)
     (by decide) (by decide)⟩
